import Mathlib

/-!
Verification of the dpui core (src-tauri): the displayplacer report
processing in `displayplacer.rs` and the preset store in `presets.rs`.

Rust strings are embedded as `List Char` so that every operation reduces in
the kernel.  Each definition below is a direct translation of the Rust
function of the same (or closely related) name; string primitives
(`contains`, `split`, `trim`, `split_whitespace`, `strip_prefix`,
`i32::from_str`, `str::lines`) are modelled once and reused.  Whitespace is
modelled as the ASCII whitespace characters, which is what every input in
this code base uses.
-/

namespace Dpui

/-- Rust `&str` / `String`, embedded as a list of characters. -/
abbrev Str := List Char

instance {ε α : Type} [DecidableEq ε] [DecidableEq α] : DecidableEq (Except ε α) :=
  fun x y =>
  match x, y with
  | .ok a, .ok b =>
    if h : a = b then .isTrue (congrArg _ h)
    else .isFalse (fun hc => h (Except.ok.inj hc))
  | .error a, .error b =>
    if h : a = b then .isTrue (congrArg _ h)
    else .isFalse (fun hc => h (Except.error.inj hc))
  | .ok _, .error _ => .isFalse (fun hc => Except.noConfusion hc)
  | .error _, .ok _ => .isFalse (fun hc => Except.noConfusion hc)

/-- Turn a Lean string literal into the embedded representation. -/
def ofString (s : String) : Str := s.data

/-- Rust `char::is_whitespace`, restricted to the ASCII whitespace
characters (all inputs in this code base are ASCII). -/
def isWS (c : Char) : Bool :=
  c = ' ' || c = '\t' || c = '\n' || c = '\r'

/-- Rust `str::starts_with(pat)`. -/
def startsWithStr : Str → Str → Bool
  | _, [] => true
  | [], _ :: _ => false
  | c :: s, d :: p => c = d && startsWithStr s p

/-- Rust `str::contains(pat)`: `pat` occurs as a contiguous substring. -/
def containsStr : Str → Str → Bool
  | [], pat => pat.isEmpty
  | c :: rest, pat => startsWithStr (c :: rest) pat || containsStr rest pat

/-- Rust `str::strip_prefix(pat)`. -/
def stripPrefixStr : Str → Str → Option Str
  | s, [] => some s
  | [], _ :: _ => none
  | c :: s, d :: p => if c = d then stripPrefixStr s p else none

/-- Rust `str::split(sep)` (a char separator); always non-empty, keeps
empty segments. -/
def splitCh (sep : Char) : Str → List Str
  | [] => [[]]
  | c :: rest =>
    if c = sep then [] :: splitCh sep rest
    else
      match splitCh sep rest with
      | [] => [[c]]
      | w :: ws => (c :: w) :: ws

/-- Rust `str::trim_matches(pred)`: drop matching characters from both
ends. -/
def trimMatchesStr (p : Char → Bool) (s : Str) : Str :=
  ((s.dropWhile p).reverse.dropWhile p).reverse

/-- Rust `str::trim()`. -/
def trimStr (s : Str) : Str := trimMatchesStr isWS s

/-- Accumulator pass behind `splitWS`; `acc` is the current word,
reversed. -/
def splitWSAux : Str → Str → List Str
  | [], acc => if acc.isEmpty then [] else [acc.reverse]
  | c :: rest, acc =>
    if isWS c then
      if acc.isEmpty then splitWSAux rest []
      else acc.reverse :: splitWSAux rest []
    else splitWSAux rest (c :: acc)

/-- Rust `str::split_whitespace()`: maximal non-whitespace runs, no empty
tokens. -/
def splitWS (s : Str) : List Str := splitWSAux s []

/-- Digit accumulation behind `digitsToNat?`. -/
def digitsToNatAux : Str → Nat → Option Nat
  | [], acc => some acc
  | c :: rest, acc =>
    if 48 ≤ c.toNat && c.toNat ≤ 57 then
      digitsToNatAux rest (acc * 10 + (c.toNat - 48))
    else none

/-- All-digits string to `Nat`; `none` on the empty string or any
non-digit. -/
def digitsToNat? : Str → Option Nat
  | [] => none
  | c :: rest => digitsToNatAux (c :: rest) 0

/-- Rust `i32::from_str`: optional single sign, then one or more ASCII
digits, rejecting values outside the `i32` range. -/
def parseI32 (s : Str) : Option Int :=
  match s with
  | '+' :: rest =>
    match digitsToNat? rest with
    | some n => if n ≤ 2147483647 then some (n : Int) else none
    | none => none
  | '-' :: rest =>
    match digitsToNat? rest with
    | some n => if n ≤ 2147483648 then some (-(n : Int)) else none
    | none => none
  | _ =>
    match digitsToNat? s with
    | some n => if n ≤ 2147483647 then some (n : Int) else none
    | none => none

/-- The characters `trim_matches` removes in `parse_coordinates`. -/
def isParen (c : Char) : Bool := c = '(' || c = ')'

/-- `parse_coordinates` from displayplacer.rs: trim `(`/`)` characters
from both ends, split on `,`, require exactly two `i32`-parsable parts. -/
def parseCoordinates (s : Str) : Option (Int × Int) :=
  let cleaned := trimMatchesStr isParen s
  let parts := splitCh ',' cleaned
  match parts with
  | [a, b] =>
    match parseI32 a, parseI32 b with
    | some x, some y => some (x, y)
    | _, _ => none
  | _ => none

/-- `Display` from displayplacer.rs. -/
structure Display where
  id : Str
  resolution : Str
  origin : Int × Int
  rotation : Int
  enabled : Bool
deriving DecidableEq

/-- The four mutable locals of `parse_display_string` (`enabled` is
computed separately from the whole candidate string). -/
structure DisplayAcc where
  id : Str
  resolution : Str
  origin : Int × Int
  rotation : Int
deriving DecidableEq

/-- The token keys recognised by `parse_display_string`. -/
def idKey : Str := ofString "id:"

def resKey : Str := ofString "res:"

def originKey : Str := ofString "origin:"

def degreeKey : Str := ofString "degree:"

def disabledTok : Str := ofString "disabled"

/-- One iteration of the `config.split_whitespace()` loop in
`parse_display_string`. -/
def displayStep (st : DisplayAcc) (part : Str) : DisplayAcc :=
  if startsWithStr part idKey then
    { st with id := (stripPrefixStr part idKey).getD [] }
  else if startsWithStr part resKey then
    { st with resolution := (stripPrefixStr part resKey).getD [] }
  else if startsWithStr part originKey then
    match parseCoordinates ((stripPrefixStr part originKey).getD []) with
    | some coords => { st with origin := coords }
    | none => st
  else if startsWithStr part degreeKey then
    { st with rotation :=
        (parseI32 ((stripPrefixStr part degreeKey).getD (ofString "0"))).getD 0 }
  else st

/-- `parse_display_string` from displayplacer.rs. -/
def parseDisplayString (config : Str) : Option Display :=
  let enabled := !containsStr config disabledTok
  let st := (splitWS config).foldl displayStep ⟨[], [], (0, 0), 0⟩
  if st.id.isEmpty then none
  else some ⟨st.id, st.resolution, st.origin, st.rotation, enabled⟩

/-- Rust `str::lines`: split on `'\n'`, strip a `'\r'` that preceded a
`'\n'`, and drop the empty segment a trailing newline leaves behind. -/
def linesOf (s : Str) : List Str :=
  let parts := splitCh '\n' s
  let stripCR : Str → Str := fun l =>
    if l.getLast? = some '\r' then l.dropLast else l
  let front := parts.dropLast.map stripCR
  match parts.getLast? with
  | some [] => front
  | some l => front ++ [l]
  | none => front

/-- The marker phrase `parse_displayplacer_output` scans for. -/
def markerTok : Str := ofString "Execute the command below"

/-- The command word a qualifying line must start with (after trim). -/
def dpWord : Str := ofString "displayplacer"

/-- The filter on lines after the marker in `parse_displayplacer_output`:
the line is itself a displayplacer invocation and mentions both keys. -/
def lineQualifies (line : Str) : Bool :=
  startsWithStr (trimStr line) dpWord
    && containsStr line idKey && containsStr line originKey

/-- One iteration of the quote-segment loop inside
`parse_displayplacer_output`: a segment is a candidate only when it
contains both `id:` and `origin:`, and a candidate that fails
`parse_display_string` is skipped. -/
def segmentStep (ds : List Display) (part : Str) : List Display :=
  if containsStr part idKey && containsStr part originKey then
    match parseDisplayString part with
    | some d => ds ++ [d]
    | none => ds
  else ds

/-- Processing of one qualifying line: split on `'"'` and fold the
segment loop. -/
def processLine (ds : List Display) (line : Str) : List Display :=
  (splitCh '"' line).foldl segmentStep ds

/-- The line scan of `parse_displayplacer_output`: state is the
`found_execute_line` flag and the displays collected so far. -/
def scanLines : List Str → Bool → List Display → List Display
  | [], _, ds => ds
  | line :: rest, found, ds =>
    if containsStr line markerTok then scanLines rest true ds
    else if found && lineQualifies line then
      scanLines rest found (processLine ds line)
    else scanLines rest found ds

/-- The error text for an empty parse. -/
def noDisplaysMsg : Str := ofString "No displays found in displayplacer output"

/-- `parse_displayplacer_output` from displayplacer.rs. -/
def parseDisplayplacerOutput (output : Str) : Except Str (List Display) :=
  let displays := scanLines (linesOf output) false []
  if displays.isEmpty then .error noDisplaysMsg
  else .ok displays

/-- The `enabled:<bool>` rendering in `toggle_display_enabled`. -/
def enabledStr (enabled : Bool) : Str :=
  if enabled then ofString "true" else ofString "false"

/-- The argument string built by `toggle_display_enabled`:
`format!("id:{} enabled:{}", id, enabled_str)`. -/
def toggleConfigArg (id : Str) (enabled : Bool) : Str :=
  ofString "id:" ++ id ++ ofString " enabled:" ++ enabledStr enabled

/-! ### Auxiliary combinatorics: all orderings of a token list

`permsOf` enumerates the permutations of a list of tokens by a structural
recursion the kernel can evaluate; `permsOf_complete` below shows every
`List.Perm`-equivalent list is enumerated, so a statement checked on
`permsOf ts` holds for every reordering of `ts`. -/

/-- All ways to insert `a` into a list. -/
def insertsOf (a : Str) : List Str → List (List Str)
  | [] => [[a]]
  | b :: l => (a :: b :: l) :: (insertsOf a l).map (b :: ·)

/-- All permutations of a token list. -/
def permsOf : List Str → List (List Str)
  | [] => [[]]
  | a :: l => (permsOf l).foldr (fun p acc => insertsOf a p ++ acc) []

/-- Remove the first occurrence of `a`. -/
def eraseFirst (a : Str) : List Str → List Str
  | [] => []
  | b :: l => if b = a then l else b :: eraseFirst a l

/-- Join tokens with single spaces (how a display segment is assembled
from its `key:value` tokens). -/
def joinSp : List Str → Str
  | [] => []
  | [t] => t
  | t :: u :: rest => t ++ ' ' :: joinSp (u :: rest)

/-! ### The preset store (presets.rs)

File-system effects are made explicit: the on-disk preset file is a value
of type `Option Str` (`none` = absent), reading may fail, and
`serde_json::from_str` — library code outside this repository — is a
parameter of `loadPresets`.  `std::fs::write` opens the destination with
truncation and then writes the buffer, so its model takes the previous
content (which it destroys) and a write outcome: `none` means the whole
buffer was written, `some k` means the write failed after `k` bytes,
leaving the file holding the first `k` bytes of the new content. -/

/-- `Preset` from presets.rs. -/
structure Preset where
  id : Str
  name : Str
  config : Str
  hotkey : Option Str
  created_at : Str
deriving DecidableEq

/-- `PresetStore` from presets.rs. -/
structure PresetStore where
  version : Str
  presets : List Preset
deriving DecidableEq

/-- `Default for PresetStore`: version "1.0", no presets. -/
def PresetStore.default : PresetStore := ⟨ofString "1.0", []⟩

/-- `load_presets` from presets.rs.  `fileExists` and `readResult` model
the `path.exists()` check and `fs::read_to_string`; `fromStr` models
`serde_json::from_str::<PresetStore>`, which is library code. -/
def loadPresets (fileExists : Bool) (readResult : Except Str Str)
    (fromStr : Str → Except Str PresetStore) : Except Str PresetStore :=
  if !fileExists then .ok PresetStore.default
  else
    match readResult with
    | .error e => .error (ofString "Failed to read presets: " ++ e)
    | .ok content =>
      match fromStr content with
      | .ok store => .ok store
      | .error e => .error (ofString "Failed to parse presets: " ++ e)

/-- Lowercase hex digit, as serde_json renders `\u` escapes. -/
def hexDigitChar (n : Nat) : Char :=
  if n < 10 then Char.ofNat (48 + n) else Char.ofNat (87 + n)

/-- serde_json escaping of one character inside a JSON string. -/
def jsonEscapeChar (c : Char) : Str :=
  if c = '"' then ['\\', '"']
  else if c = '\\' then ['\\', '\\']
  else if c = Char.ofNat 8 then ['\\', 'b']
  else if c = '\t' then ['\\', 't']
  else if c = '\n' then ['\\', 'n']
  else if c = Char.ofNat 12 then ['\\', 'f']
  else if c = '\r' then ['\\', 'r']
  else if c.toNat < 32 then
    ['\\', 'u', '0', '0', hexDigitChar (c.toNat / 16), hexDigitChar (c.toNat % 16)]
  else [c]

/-- A JSON string literal with escaping. -/
def jsonStr (s : Str) : Str :=
  '"' :: s.foldr (fun c acc => jsonEscapeChar c ++ acc) ['"']

/-- serde_json rendering of `Option<String>`. -/
def jsonOptStr : Option Str → Str
  | none => ofString "null"
  | some s => jsonStr s

/-- Join with a separator. -/
def intercalateStr (sep : Str) : List Str → Str
  | [] => []
  | [s] => s
  | s :: t :: rest => s ++ sep ++ intercalateStr sep (t :: rest)

/-- serde_json pretty rendering of one `Preset`, as it appears nested in
the `presets` array (two-space indent per level, fields in declaration
order). -/
def serializePreset (p : Preset) : Str :=
  ofString "    \x7b\n      \"id\": " ++ jsonStr p.id ++
  ofString ",\n      \"name\": " ++ jsonStr p.name ++
  ofString ",\n      \"config\": " ++ jsonStr p.config ++
  ofString ",\n      \"hotkey\": " ++ jsonOptStr p.hotkey ++
  ofString ",\n      \"created_at\": " ++ jsonStr p.created_at ++
  ofString "\n    \x7d"

/-- `serde_json::to_string_pretty` on a `PresetStore`: fields in
declaration order (`version`, then `presets`), two-space indent. -/
def serializePresetStore (store : PresetStore) : Str :=
  ofString "\x7b\n  \"version\": " ++ jsonStr store.version ++
  ofString ",\n  \"presets\": " ++
  (match store.presets with
   | [] => ofString "[]"
   | ps =>
     ofString "[\n" ++ intercalateStr (ofString ",\n") (ps.map serializePreset) ++
     ofString "\n  ]") ++
  ofString "\n\x7d"

/-- Model of `std::fs::write(path, content)`: the previous file content
`old` is destroyed by the truncating open; on outcome `none` the file ends
up holding `content`, on outcome `some k` the call fails after writing `k`
bytes and the file holds `content.take k`.  Returns (succeeded?, resulting
file). -/
def fsWrite (_old : Option Str) (content : Str) : Option Nat → Bool × Option Str
  | none => (true, some content)
  | some k => (false, some (content.take k))

/-- The error text prefix of a failed write in `save_presets`. -/
def writeFailMsg : Str := ofString "Failed to write presets"

/-- `save_presets` from presets.rs: serialize with
`serde_json::to_string_pretty`, then `fs::write` in place.  Returns the
command result together with the resulting on-disk file. -/
def savePresets (store : PresetStore) (old : Option Str) (outcome : Option Nat) :
    Except Str Unit × Option Str :=
  let content := serializePresetStore store
  match fsWrite old content outcome with
  | (true, f) => (.ok (), f)
  | (false, f) => (.error writeFailMsg, f)

/-- `add_preset` from presets.rs, after the surrounding load: the fresh
`uuid::Uuid::new_v4()` and `chrono::Utc::now()` values are parameters
(they come from library code).  Appends the new preset and returns the
updated store and the new record. -/
def addPreset (name config : Str) (hotkey : Option Str) (freshId createdAt : Str)
    (store : PresetStore) : PresetStore × Preset :=
  let p : Preset := ⟨freshId, name, config, hotkey, createdAt⟩
  (⟨store.version, store.presets ++ [p]⟩, p)

/-- `delete_preset` from presets.rs, after the surrounding load:
`store.presets.retain(|p| p.id != id)`. -/
def deletePreset (id : Str) (store : PresetStore) : PresetStore :=
  ⟨store.version, store.presets.filter (fun p => p.id ≠ id)⟩

/-- The first preset with the given id, as `iter_mut().find` locates it. -/
def findPreset (id : Str) : List Preset → Option Preset
  | [] => none
  | p :: ps => if p.id = id then some p else findPreset id ps

/-- The field updates `update_preset` applies to the found preset:
`name`/`config` replace when supplied; `hotkey` is assigned only when
`hotkey.is_some()`. -/
def applyUpdate (name config hotkey : Option Str) (p : Preset) : Preset :=
  let p1 := match name with | some n => { p with name := n } | none => p
  let p2 := match config with | some c => { p1 with config := c } | none => p1
  if hotkey.isSome then { p2 with hotkey := hotkey } else p2

/-- In-place update of the first preset with the given id, returning the
new list and the updated record (`iter_mut().find` + mutation). -/
def updateFirst (f : Preset → Preset) (id : Str) : List Preset → Option (List Preset × Preset)
  | [] => none
  | p :: ps =>
    if p.id = id then
      let p' := f p
      some (p' :: ps, p')
    else
      match updateFirst f id ps with
      | some (ps', q) => some (p :: ps', q)
      | none => none

/-- The error text of `update_preset` when no preset matches. -/
def notFoundMsg : Str := ofString "Preset not found"

/-- `update_preset` from presets.rs, after the surrounding load: find the
preset by id (else "Preset not found"), apply the optional field updates,
return the updated store and record. -/
def updatePreset (id : Str) (name config hotkey : Option Str) (store : PresetStore) :
    Except Str (PresetStore × Preset) :=
  match updateFirst (applyUpdate name config hotkey) id store.presets with
  | none => .error notFoundMsg
  | some (ps, p) => .ok (⟨store.version, ps⟩, p)

/-- Modelled from the spec: the coordinate sub-parser as §4.1 of the spec
words it — "trimmed of a single leading `(` and trailing `)` if present,
then split on `,`" — for comparison with `parseCoordinates`, whose
`trim_matches` trims every leading and trailing paren character. -/
def specTrimSingleParen (s : Str) : Str :=
  let s1 := match s with | '(' :: rest => rest | other => other
  match s1.getLast? with
  | some ')' => s1.dropLast
  | _ => s1

/-- Modelled from the spec: the coordinate sub-parser of the claim, built
on the single-trim of `specTrimSingleParen`. -/
def specParseCoordinates (s : Str) : Option (Int × Int) :=
  let parts := splitCh ',' (specTrimSingleParen s)
  match parts with
  | [a, b] =>
    match parseI32 a, parseI32 b with
    | some x, some y => some (x, y)
    | _, _ => none
  | _ => none


/-! ## Claim theorems -/

lemma applyUpdate_hotkey (name config hotkey : Option Str) (p : Preset) :
    (applyUpdate name config hotkey p).hotkey
      = if hotkey.isSome then hotkey else p.hotkey := by
  cases name <;> cases config <;> cases hotkey <;> simp [applyUpdate]

lemma applyUpdate_name (name config hotkey : Option Str) (p : Preset) :
    (applyUpdate name config hotkey p).name = name.getD p.name := by
  cases name <;> cases config <;> cases hotkey <;> simp [applyUpdate]

lemma applyUpdate_config (name config hotkey : Option Str) (p : Preset) :
    (applyUpdate name config hotkey p).config = config.getD p.config := by
  cases name <;> cases config <;> cases hotkey <;> simp [applyUpdate]

lemma applyUpdate_id (name config hotkey : Option Str) (p : Preset) :
    (applyUpdate name config hotkey p).id = p.id := by
  cases name <;> cases config <;> cases hotkey <;> simp [applyUpdate]

lemma applyUpdate_created_at (name config hotkey : Option Str) (p : Preset) :
    (applyUpdate name config hotkey p).created_at = p.created_at := by
  cases name <;> cases config <;> cases hotkey <;> simp [applyUpdate]

lemma updateFirst_of_findPreset (f : Preset → Preset) (id : Str) :
    ∀ ps p, findPreset id ps = some p →
      ∃ ps', updateFirst f id ps = some (ps', f p) := by
  intro ps
  induction ps with
  | nil => intro p h; cases h
  | cons q ps ih =>
    intro p h
    by_cases hq : q.id = id
    · rw [findPreset, if_pos hq] at h
      injection h with h
      subst h
      exact ⟨f q :: ps, by simp [updateFirst, hq]⟩
    · rw [findPreset, if_neg hq] at h
      obtain ⟨ps', h'⟩ := ih p h
      exact ⟨q :: ps', by rw [updateFirst, if_neg hq, h']⟩

lemma updateFirst_of_findPreset_none (f : Preset → Preset) (id : Str) :
    ∀ ps, findPreset id ps = none → updateFirst f id ps = none := by
  intro ps
  induction ps with
  | nil => intro _; rfl
  | cons q ps ih =>
    intro h
    by_cases hq : q.id = id
    · rw [findPreset, if_pos hq] at h; cases h
    · rw [findPreset, if_neg hq] at h
      rw [updateFirst, if_neg hq, ih h]

/-- C1 (counterexample): with a stored preset `p1` carrying hotkey
`Cmd+1`, an update whose hotkey argument is the explicit `None` leaves
the store — and the binding — exactly as they were, instead of clearing
the hotkey as the claim requires; and since omitted and explicit `None`
arrive as the same value, no distinct "argument not supplied" call
exists. -/
theorem update_hotkey_none_counterexample :
    updatePreset (ofString "p1") none none none
        ⟨ofString "1.0", [⟨ofString "p1", ofString "Work", ofString "cfg",
          some (ofString "Cmd+1"), ofString "t0"⟩]⟩
      = .ok (⟨ofString "1.0", [⟨ofString "p1", ofString "Work", ofString "cfg",
          some (ofString "Cmd+1"), ofString "t0"⟩]⟩,
          ⟨ofString "p1", ofString "Work", ofString "cfg",
          some (ofString "Cmd+1"), ofString "t0"⟩)
    ∧ (some (ofString "Cmd+1") : Option Str) ≠ none := by
  exact ⟨by decide, by decide⟩

/-- C1 (amended): `update` replaces `name`/`config` when supplied;
`hotkey` is written only when it is `Some` — an explicit `None` (which is
also how an omitted argument arrives) leaves the binding unchanged, so no
update call ever clears an existing hotkey; unknown ids fail with
"Preset not found". -/
theorem update_hotkey_some_only :
    (∀ id name config hk store p, findPreset id store.presets = some p →
      ∃ store' p', updatePreset id name config hk store = .ok (store', p')
        ∧ p'.hotkey = (if hk.isSome then hk else p.hotkey)
        ∧ p'.name = name.getD p.name
        ∧ p'.config = config.getD p.config
        ∧ p'.id = p.id ∧ p'.created_at = p.created_at)
    ∧ (∀ id name config hk store, findPreset id store.presets = none →
        updatePreset id name config hk store = .error notFoundMsg)
    ∧ (∀ id name config store p v, findPreset id store.presets = some p →
        p.hotkey = some v →
        ∀ store' p', updatePreset id name config none store = .ok (store', p') →
          p'.hotkey = some v) := by
  have main : ∀ id name config hk (store : PresetStore) p,
      findPreset id store.presets = some p →
      ∃ store' p', updatePreset id name config hk store = .ok (store', p')
        ∧ p'.hotkey = (if hk.isSome then hk else p.hotkey)
        ∧ p'.name = name.getD p.name
        ∧ p'.config = config.getD p.config
        ∧ p'.id = p.id ∧ p'.created_at = p.created_at := by
    intro id name config hk store p h
    obtain ⟨ps', h'⟩ :=
      updateFirst_of_findPreset (applyUpdate name config hk) id store.presets p h
    refine ⟨⟨store.version, ps'⟩, applyUpdate name config hk p, ?_, ?_, ?_, ?_, ?_, ?_⟩
    · rw [updatePreset, h']
    · exact applyUpdate_hotkey name config hk p
    · exact applyUpdate_name name config hk p
    · exact applyUpdate_config name config hk p
    · exact applyUpdate_id name config hk p
    · exact applyUpdate_created_at name config hk p
  refine ⟨main, ?_, ?_⟩
  · intro id name config hk store h
    rw [updatePreset, updateFirst_of_findPreset_none (applyUpdate name config hk) id store.presets h]
  · intro id name config store p v hfind hhk store' p' hup
    obtain ⟨s0, q0, heq, hh, -, -, -, -⟩ := main id name config none store p hfind
    rw [heq] at hup
    have : (s0, q0) = (store', p') := by
      exact (Except.ok.inj hup)
    cases this
    rw [hh, hhk]
    rfl

/-- C1 (witness): the amended theorem applied to the concrete one-preset
store, once with a supplied hotkey and once with `None`. -/
theorem update_hotkey_some_only_witness :
    ∃ store' p',
      updatePreset (ofString "p1") none none (some (ofString "Cmd+2"))
          ⟨ofString "1.0", [⟨ofString "p1", ofString "Work", ofString "cfg",
            some (ofString "Cmd+1"), ofString "t0"⟩]⟩
        = .ok (store', p')
      ∧ p'.hotkey = (if (some (ofString "Cmd+2") : Option Str).isSome
          then some (ofString "Cmd+2")
          else some (ofString "Cmd+1"))
      ∧ p'.name = (none : Option Str).getD (ofString "Work")
      ∧ p'.config = (none : Option Str).getD (ofString "cfg")
      ∧ p'.id = ofString "p1" ∧ p'.created_at = ofString "t0" :=
  update_hotkey_some_only.1 (ofString "p1") none none (some (ofString "Cmd+2"))
    ⟨ofString "1.0", [⟨ofString "p1", ofString "Work", ofString "cfg",
      some (ofString "Cmd+1"), ofString "t0"⟩]⟩
    ⟨ofString "p1", ofString "Work", ofString "cfg",
      some (ofString "Cmd+1"), ofString "t0"⟩ (by decide)



/-- C2 (counterexample): `save_presets` writes with `fs::write`, which
truncates in place; a write that fails immediately leaves the file empty,
not holding the previous content "OLD" as the claim requires. -/
theorem save_truncates_counterexample :
    (savePresets PresetStore.default (some (ofString "OLD")) (some 0)).2
      ≠ some (ofString "OLD")
    ∧ (savePresets PresetStore.default (some (ofString "OLD")) (some 0)).1
      = .error writeFailMsg := by
  exact ⟨by decide, by decide⟩

set_option maxRecDepth 4000 in
/-- C2 (amended): `save_presets` serializes deterministically with
`serde_json::to_string_pretty` (fields in declaration order, two-space
indent) and writes the result in place with truncate-then-write
semantics: a successful save leaves exactly the serialized text, and a
save failing after `k` bytes leaves the first `k` bytes of the NEW
content — the previous file content is not preserved. -/
theorem save_pretty_in_place :
    (∀ store old, savePresets store old none
        = (.ok (), some (serializePresetStore store)))
    ∧ (∀ store old k, savePresets store old (some k)
        = (.error writeFailMsg, some ((serializePresetStore store).take k)))
    ∧ serializePresetStore ⟨ofString "1.0",
        [⟨ofString "a1", ofString "Desk", ofString "id:1 res:2560x1440",
          some (ofString "Cmd+1"), ofString "2024-05-01T12:00:00Z"⟩]⟩
      = ofString "\x7b\n  \"version\": \"1.0\",\n  \"presets\": [\n    \x7b\n      \"id\": \"a1\",\n      \"name\": \"Desk\",\n      \"config\": \"id:1 res:2560x1440\",\n      \"hotkey\": \"Cmd+1\",\n      \"created_at\": \"2024-05-01T12:00:00Z\"\n    \x7d\n  ]\n\x7d" := by
  refine ⟨fun store old => rfl, fun store old k => rfl, by decide⟩

/-- C3 (counterexample): the coordinate sub-parser does not trim a single
leading `(` and trailing `)` — `trim_matches` strips every leading and
trailing paren, so `"((2560,0))"` parses to `(2560, 0)` although under
the claimed single-trim reading (`specParseCoordinates`) the remaining
inner paren makes both parts unparsable. -/
theorem parse_coordinates_counterexample :
    parseCoordinates (ofString "((2560,0))") = some (2560, 0)
    ∧ specParseCoordinates (ofString "((2560,0))") = none := by
  exact ⟨by decide, by decide⟩

/-- C3 (amended): the sub-parser trims ALL leading and trailing `(`/`)`
characters, splits on `,`, and succeeds exactly when two independently
signed `i32`-parsable parts remain; the three concrete examples of the
claim hold. -/
theorem parse_coordinates_contract :
    (∀ s x y, parseCoordinates s = some (x, y) ↔
      ∃ a b, splitCh ',' (trimMatchesStr isParen s) = [a, b]
        ∧ parseI32 a = some x ∧ parseI32 b = some y)
    ∧ parseCoordinates (ofString "(2560,0)") = some (2560, 0)
    ∧ parseCoordinates (ofString "(-1920,0)") = some (-1920, 0)
    ∧ parseCoordinates (ofString "bad") = none := by
  refine ⟨?_, by decide, by decide, by decide⟩
  intro s x y
  unfold parseCoordinates
  cases h : splitCh ',' (trimMatchesStr isParen s) with
  | nil => simp [h]
  | cons a t =>
    cases t with
    | nil => simp [h]
    | cons b t2 =>
      cases t2 with
      | nil =>
        simp only [h]
        cases hpa : parseI32 a <;> cases hpb : parseI32 b <;>
          simp [hpa, hpb, eq_comm, and_assoc]
      | cons c t3 => simp [h]

/-- C3 (witness): the amended contract applied at `"(2560,0)"`. -/
theorem parse_coordinates_contract_witness :
    ∃ a b, splitCh ',' (trimMatchesStr isParen (ofString "(2560,0)")) = [a, b]
      ∧ parseI32 a = some 2560 ∧ parseI32 b = some 0 :=
  (parse_coordinates_contract.1 (ofString "(2560,0)") 2560 0).mp (by decide)

/-- C6 (counterexample): a present-but-unparsable preset file makes
`load_presets` fail the caller with a parse error; it is not treated as
an empty store. -/
theorem load_unparsable_fails_counterexample :
    loadPresets true (.ok (ofString "not json"))
        (fun _ => .error (ofString "expected value"))
      = .error (ofString "Failed to parse presets: expected value")
    ∧ loadPresets true (.ok (ofString "not json"))
        (fun _ => .error (ofString "expected value"))
      ≠ .ok PresetStore.default := by
  exact ⟨by decide, by decide⟩

/-- C6 (amended): an absent file yields the fresh default store (version
"1.0", no presets); a present file that cannot be read or parsed fails
the caller with a distinct error kind ("Failed to read presets: " vs
"Failed to parse presets: "), so user data is never silently replaced by
an empty store; a parsable file yields its store. -/
theorem load_default_or_distinct_errors :
    (∀ readResult fromStr, loadPresets false readResult fromStr = .ok PresetStore.default)
    ∧ PresetStore.default.version = ofString "1.0"
    ∧ PresetStore.default.presets = []
    ∧ (∀ e fromStr, loadPresets true (.error e) fromStr
        = .error (ofString "Failed to read presets: " ++ e))
    ∧ (∀ content fromStr e, fromStr content = .error e →
        loadPresets true (.ok content) fromStr
          = .error (ofString "Failed to parse presets: " ++ e))
    ∧ (∀ content fromStr store, fromStr content = .ok store →
        loadPresets true (.ok content) fromStr = .ok store)
    ∧ (∀ e e' : Str, ofString "Failed to read presets: " ++ e
        ≠ ofString "Failed to parse presets: " ++ e') := by
  refine ⟨fun _ _ => rfl, rfl, rfl, fun e fromStr => rfl, ?_, ?_, ?_⟩
  · intro content fromStr e h
    simp [loadPresets, h]
  · intro content fromStr store h
    simp [loadPresets, h]
  · intro e e' h
    have h10 := congrArg (fun l : Str => l[10]?) h
    simp only [List.getElem?_append_left (by decide : (10:Nat) < (ofString "Failed to read presets: ").length),
      List.getElem?_append_left (by decide : (10:Nat) < (ofString "Failed to parse presets: ").length)] at h10
    exact absurd h10 (by decide)

/-- C6 (witness): the amended theorem's parse-failure case at a concrete
unparsable file. -/
theorem load_default_or_distinct_errors_witness :
    loadPresets true (.ok (ofString "\x7b broken"))
        (fun _ => .error (ofString "EOF while parsing"))
      = .error (ofString "Failed to parse presets: " ++ ofString "EOF while parsing") :=
  load_default_or_distinct_errors.2.2.2.2.1 (ofString "\x7b broken")
    (fun _ => .error (ofString "EOF while parsing")) (ofString "EOF while parsing") rfl



/-- C4 (counterexample): the quote-split segment `"id:A res:1x1"`
contains the identifier token and would parse to a Display with the
default origin, yet the parser's segment filter demands BOTH `id:` and
`origin:`, so the whole report yields only the `id:B` display — the
id-only segment is skipped, not parsed. -/
theorem segment_needs_origin_counterexample :
    containsStr (ofString "id:A res:1x1") idKey = true
    ∧ parseDisplayString (ofString "id:A res:1x1")
        = some ⟨ofString "A", ofString "1x1", (0, 0), 0, true⟩
    ∧ parseDisplayplacerOutput (ofString
        "Execute the command below\ndisplayplacer \"id:A res:1x1\" \"id:B origin:(1,2)\"")
        = .ok [⟨ofString "B", [], (1, 2), 0, true⟩] := by
  exact ⟨by decide, by decide, by decide⟩

/-- C4 (amended): within a qualifying line split on the quote character,
exactly the segments containing BOTH the identifier token and the origin
token are candidates and are parsed; a segment missing either token — and
a candidate `parse_display_string` rejects — is discarded silently,
without failing the parse. -/
theorem segment_filter_requires_both :
    (∀ (parts : List Str) (ds : List Display), parts.foldl segmentStep ds
      = ds ++ (parts.filter
          (fun p => containsStr p idKey && containsStr p originKey)).filterMap
            parseDisplayString)
    ∧ (∀ ds line, processLine ds line
      = ds ++ ((splitCh '"' line).filter
          (fun p => containsStr p idKey && containsStr p originKey)).filterMap
            parseDisplayString) := by
  have main : ∀ (parts : List Str) (ds : List Display), parts.foldl segmentStep ds
      = ds ++ (parts.filter
          (fun p => containsStr p idKey && containsStr p originKey)).filterMap
            parseDisplayString := by
    intro parts
    induction parts with
    | nil => intro ds; simp
    | cons q parts ih =>
      intro ds
      rw [List.foldl_cons, ih (segmentStep ds q)]
      by_cases hq : (containsStr q idKey && containsStr q originKey) = true
      · cases hp : parseDisplayString q with
        | none => simp [List.filter_cons, segmentStep, hq, hp]
        | some d => simp [List.filter_cons, segmentStep, hq, hp]
      · have hq' : (containsStr q idKey && containsStr q originKey) = false := by
          simpa using hq
        simp [List.filter_cons, segmentStep, hq']
  exact ⟨main, fun ds line => main (splitCh '"' line) ds⟩

/-- C5 (counterexample): a `degree:45` token passes straight into the
produced Display — the full parser returns rotation 45, which is outside
{0, 90, 180, 270}, with no anomaly signalled. -/
theorem rotation_not_restricted_counterexample :
    parseDisplayplacerOutput (ofString
        "Execute the command below\ndisplayplacer \"id:A origin:(0,0) degree:45\"")
      = .ok [⟨ofString "A", [], (0, 0), 45, true⟩]
    ∧ ¬((45 : Int) = 0 ∨ (45 : Int) = 90 ∨ (45 : Int) = 180 ∨ (45 : Int) = 270) := by
  exact ⟨by decide, by decide⟩

/-- C5 (amended): rotation defaults to 0 when every `degree:` token is
missing or has an unparsable payload, but any i32-parsable degree value —
including values outside {0, 90, 180, 270} — is stored in the Display
verbatim. -/
theorem rotation_default_zero :
    (∀ config d, parseDisplayString config = some d →
      (∀ t ∈ splitWS config, startsWithStr t degreeKey = true →
        parseI32 ((stripPrefixStr t degreeKey).getD (ofString "0")) = none) →
      d.rotation = 0)
    ∧ parseDisplayString (ofString "id:A degree:xx")
        = some ⟨ofString "A", [], (0, 0), 0, true⟩
    ∧ parseDisplayString (ofString "id:A origin:(0,0)")
        = some ⟨ofString "A", [], (0, 0), 0, true⟩
    ∧ parseDisplayString (ofString "id:A degree:45")
        = some ⟨ofString "A", [], (0, 0), 45, true⟩ := by
  have inv : ∀ (parts : List Str) (st : DisplayAcc),
      (∀ t ∈ parts, startsWithStr t degreeKey = true →
        parseI32 ((stripPrefixStr t degreeKey).getD (ofString "0")) = none) →
      st.rotation = 0 → (parts.foldl displayStep st).rotation = 0 := by
    intro parts
    induction parts with
    | nil => intro st _ h0; exact h0
    | cons t parts ih =>
      intro st hdeg h0
      rw [List.foldl_cons]
      refine ih (displayStep st t) (fun u hu => hdeg u (List.mem_cons_of_mem t hu)) ?_
      simp only [displayStep]
      by_cases h1 : startsWithStr t idKey = true
      · rw [if_pos h1]; exact h0
      · rw [if_neg h1]
        by_cases h2 : startsWithStr t resKey = true
        · rw [if_pos h2]; exact h0
        · rw [if_neg h2]
          by_cases h3 : startsWithStr t originKey = true
          · rw [if_pos h3]
            cases parseCoordinates ((stripPrefixStr t originKey).getD []) with
            | none => exact h0
            | some coords => exact h0
          · rw [if_neg h3]
            by_cases h4 : startsWithStr t degreeKey = true
            · rw [if_pos h4]
              have := hdeg t (List.mem_cons_self t parts) h4
              simp [this]
            · rw [if_neg h4]; exact h0
  refine ⟨?_, by decide, by decide, by decide⟩
  intro config d hparse hdeg
  unfold parseDisplayString at hparse
  by_cases hid : (((splitWS config).foldl displayStep ⟨[], [], (0, 0), 0⟩).id).isEmpty = true
  · rw [if_pos hid] at hparse; cases hparse
  · rw [if_neg hid] at hparse
    have hrot := inv (splitWS config) ⟨[], [], (0, 0), 0⟩ hdeg rfl
    injection hparse with hd
    rw [← hd]
    exact hrot

/-- C5 (witness): the amended default-rotation rule at a degree-free
candidate string. -/
theorem rotation_default_zero_witness :
    (⟨ofString "A", ofString "1x1", (0, 0), 0, true⟩ : Display).rotation = 0 :=
  rotation_default_zero.1 (ofString "id:A res:1x1")
    ⟨ofString "A", ofString "1x1", (0, 0), 0, true⟩ (by decide) (by decide)



/-- C7: the report parser fails (with the "no displays" message, its only
error) exactly when the scan over the whole report collected zero
displays, and every successful parse returns a non-empty display list. -/
theorem parse_error_iff_no_displays :
    ∀ output : Str,
      (parseDisplayplacerOutput output = .error noDisplaysMsg
        ↔ scanLines (linesOf output) false [] = [])
      ∧ (∀ e, parseDisplayplacerOutput output = .error e → e = noDisplaysMsg)
      ∧ (∀ ds, parseDisplayplacerOutput output = .ok ds →
          ds ≠ [] ∧ ds = scanLines (linesOf output) false []) := by
  intro output
  cases h : scanLines (linesOf output) false [] with
  | nil =>
    refine ⟨by simp [parseDisplayplacerOutput, h], ?_, ?_⟩
    · intro e he
      simp [parseDisplayplacerOutput, h] at he
      exact he.symm
    · intro ds hds
      simp [parseDisplayplacerOutput, h] at hds
  | cons d rest =>
    refine ⟨by simp [parseDisplayplacerOutput, h], ?_, ?_⟩
    · intro e he
      simp [parseDisplayplacerOutput, h] at he
    · intro ds hds
      simp [parseDisplayplacerOutput, h] at hds
      subst hds
      simp

/-- C7 (witness): at a concrete one-display report the parse succeeds
with a non-empty list. -/
theorem parse_error_iff_no_displays_witness :
    [(⟨ofString "A", [], (1, 2), 0, true⟩ : Display)] ≠ []
    ∧ [(⟨ofString "A", [], (1, 2), 0, true⟩ : Display)]
      = scanLines (linesOf (ofString
          "Execute the command below\ndisplayplacer \"id:A origin:(1,2)\"")) false [] :=
  (parse_error_iff_no_displays (ofString
      "Execute the command below\ndisplayplacer \"id:A origin:(1,2)\"")).2.2
    [⟨ofString "A", [], (1, 2), 0, true⟩] (by decide)


lemma mem_insertsOf_self (a : Str) : ∀ l : List Str, a ∈ l → l ∈ insertsOf a (eraseFirst a l) := by
  intro l
  induction l with
  | nil => intro h; cases h
  | cons b l ih =>
    intro h
    by_cases hab : b = a
    · subst hab
      cases l <;> simp [eraseFirst, insertsOf]
    · have ha : a ∈ l := by
        rcases List.mem_cons.mp h with h1 | h1
        · exact absurd h1.symm hab
        · exact h1
      simp only [eraseFirst, if_neg hab, insertsOf, List.mem_cons, List.mem_map]
      exact Or.inr ⟨l, ih ha, rfl⟩

lemma perm_eraseFirst (a : Str) : ∀ l : List Str, a ∈ l → l.Perm (a :: eraseFirst a l) := by
  intro l
  induction l with
  | nil => intro h; cases h
  | cons b l ih =>
    intro h
    by_cases hab : b = a
    · subst hab; simp [eraseFirst]
    · have ha : a ∈ l := by
        rcases List.mem_cons.mp h with h1 | h1
        · exact absurd h1.symm hab
        · exact h1
      simp only [eraseFirst, if_neg hab]
      exact ((ih ha).cons b).trans (List.Perm.swap a b _)

lemma mem_foldr_inserts {a : Str} {l : List Str} :
    ∀ ps : List (List Str), (∃ p ∈ ps, l ∈ insertsOf a p) →
      l ∈ ps.foldr (fun p acc => insertsOf a p ++ acc) [] := by
  intro ps
  induction ps with
  | nil => rintro ⟨p, hp, _⟩; cases hp
  | cons q ps ih =>
    rintro ⟨p, hp, hl⟩
    rcases List.mem_cons.mp hp with rfl | hp
    · exact List.mem_append.mpr (Or.inl hl)
    · exact List.mem_append.mpr (Or.inr (ih ⟨p, hp, hl⟩))

lemma permsOf_complete : ∀ ts l : List Str, l.Perm ts → l ∈ permsOf ts := by
  intro ts
  induction ts with
  | nil =>
    intro l h
    rw [List.perm_nil] at h
    subst h
    simp [permsOf]
  | cons a ts ih =>
    intro l h
    have ha : a ∈ l := h.symm.subset (List.mem_cons_self a ts)
    have h2 : (a :: eraseFirst a l).Perm (a :: ts) :=
      (perm_eraseFirst a l ha).symm.trans h
    have h3 : (eraseFirst a l).Perm ts := h2.cons_inv
    exact mem_foldr_inserts (permsOf ts) ⟨eraseFirst a l, ih _ h3, mem_insertsOf_self a l ha⟩

/-- C8: lines before the first marker line are ignored entirely; after
the marker, a line that is not a trimmed `displayplacer` invocation
containing both `id:` and `origin:` contributes nothing, while a
qualifying line is processed; the concrete report with the marker and one
invocation line holding two quoted segments yields exactly the two
expected Displays; and each segment parses to the same Display under
every ordering of its `id`/`res`/`origin`/`degree` tokens. -/
theorem marker_filter_and_two_segments :
    (∀ (pre rest : List Str) (ds : List Display),
      (∀ l ∈ pre, containsStr l markerTok = false) →
      scanLines (pre ++ rest) false ds = scanLines rest false ds)
    ∧ (∀ (line : Str) (rest : List Str) (ds : List Display),
        containsStr line markerTok = false → lineQualifies line = false →
        scanLines (line :: rest) true ds = scanLines rest true ds)
    ∧ (∀ (line : Str) (rest : List Str) (ds : List Display),
        containsStr line markerTok = false → lineQualifies line = true →
        scanLines (line :: rest) true ds = scanLines rest true (processLine ds line))
    ∧ parseDisplayplacerOutput (ofString
        "Persistent screen info:\nExample usage: displayplacer \"id:X res:1x1 origin:(5,5)\"\nExecute the command below to set your screens to the current arrangement:\ndisplayplacer \"id:A res:2560x1440 origin:(0,0) degree:0\" \"id:B res:1920x1080 origin:(2560,0) degree:90\"\n")
      = .ok [⟨ofString "A", ofString "2560x1440", (0, 0), 0, true⟩,
             ⟨ofString "B", ofString "1920x1080", (2560, 0), 90, true⟩]
    ∧ (∀ l, l.Perm [ofString "id:A", ofString "res:2560x1440",
          ofString "origin:(0,0)", ofString "degree:0"] →
        parseDisplayString (joinSp l)
          = some ⟨ofString "A", ofString "2560x1440", (0, 0), 0, true⟩)
    ∧ (∀ l, l.Perm [ofString "id:B", ofString "res:1920x1080",
          ofString "origin:(2560,0)", ofString "degree:90"] →
        parseDisplayString (joinSp l)
          = some ⟨ofString "B", ofString "1920x1080", (2560, 0), 90, true⟩) := by
  refine ⟨?_, ?_, ?_, by decide, ?_, ?_⟩
  · intro pre
    induction pre with
    | nil => intro rest ds _; rfl
    | cons l pre ih =>
      intro rest ds h
      have hl : containsStr l markerTok = false := h l (List.mem_cons_self l pre)
      rw [List.cons_append]
      have step : scanLines (l :: (pre ++ rest)) false ds = scanLines (pre ++ rest) false ds := by
        simp [scanLines, hl]
      rw [step]
      exact ih rest ds (fun u hu => h u (List.mem_cons_of_mem l hu))
  · intro line rest ds h1 h2
    simp [scanLines, h1, h2]
  · intro line rest ds h1 h2
    simp [scanLines, h1, h2]
  · intro l hperm
    exact (by decide : ∀ x ∈ permsOf [ofString "id:A", ofString "res:2560x1440",
        ofString "origin:(0,0)", ofString "degree:0"],
      parseDisplayString (joinSp x)
        = some ⟨ofString "A", ofString "2560x1440", (0, 0), 0, true⟩) l
      (permsOf_complete _ l hperm)
  · intro l hperm
    exact (by decide : ∀ x ∈ permsOf [ofString "id:B", ofString "res:1920x1080",
        ofString "origin:(2560,0)", ofString "degree:90"],
      parseDisplayString (joinSp x)
        = some ⟨ofString "B", ofString "1920x1080", (2560, 0), 90, true⟩) l
      (permsOf_complete _ l hperm)

/-- C8 (witness): the marker-prefix rule applied to a concrete junk line,
and segment-order independence applied to one concrete reordering. -/
theorem marker_filter_and_two_segments_witness :
    scanLines ([ofString "junk line"] ++
        [ofString "Execute the command below", ofString "displayplacer \"id:A origin:(1,2)\""])
        false []
      = scanLines [ofString "Execute the command below",
          ofString "displayplacer \"id:A origin:(1,2)\""] false []
    ∧ parseDisplayString (joinSp [ofString "degree:0", ofString "origin:(0,0)",
        ofString "res:2560x1440", ofString "id:A"])
      = some ⟨ofString "A", ofString "2560x1440", (0, 0), 0, true⟩ :=
  ⟨marker_filter_and_two_segments.1 [ofString "junk line"]
      [ofString "Execute the command below", ofString "displayplacer \"id:A origin:(1,2)\""]
      [] (by decide),
   marker_filter_and_two_segments.2.2.2.2.1
      [ofString "degree:0", ofString "origin:(0,0)", ofString "res:2560x1440", ofString "id:A"]
      (by decide)⟩


/-- C9: with a fresh id (one not already in the store, as a v4 uuid is),
`add` followed by `delete` of the returned id restores the store exactly;
`delete` removes every preset with the matching id, is idempotent, and
deleting an id that is not present is not an error and leaves the store
unchanged. -/
theorem add_delete_roundtrip :
    (∀ (store : PresetStore) (name config : Str) (hotkey : Option Str)
        (freshId createdAt : Str),
      (∀ p ∈ store.presets, p.id ≠ freshId) →
      deletePreset freshId (addPreset name config hotkey freshId createdAt store).1 = store)
    ∧ (∀ (id : Str) (store : PresetStore),
        deletePreset id (deletePreset id store) = deletePreset id store)
    ∧ (∀ (id : Str) (store : PresetStore),
        (∀ p ∈ store.presets, p.id ≠ id) → deletePreset id store = store)
    ∧ (∀ (id : Str) (store : PresetStore) (p : Preset),
        p ∈ (deletePreset id store).presets → p.id ≠ id) := by
  have keep : ∀ (id : Str) (ps : List Preset), (∀ p ∈ ps, p.id ≠ id) →
      ps.filter (fun p => p.id ≠ id) = ps := by
    intro id ps h
    exact List.filter_eq_self.mpr (fun p hp => decide_eq_true (h p hp))
  refine ⟨?_, ?_, ?_, ?_⟩
  · intro store name config hotkey freshId createdAt h
    show PresetStore.mk _ _ = _
    rw [addPreset]
    simp only [deletePreset, List.filter_append]
    rw [keep freshId store.presets h]
    simp
  · intro id store
    simp only [deletePreset]
    rw [keep id (store.presets.filter (fun p => p.id ≠ id))
      (fun p hp => of_decide_eq_true (List.mem_filter.mp hp).2)]
  · intro id store h
    show PresetStore.mk store.version (store.presets.filter (fun p => p.id ≠ id)) = store
    rw [keep id store.presets h]
  · intro id store p hp
    exact of_decide_eq_true (List.mem_filter.mp hp).2

/-- C9 (witness): the round-trip applied to a concrete one-preset store
with a fresh id. -/
theorem add_delete_roundtrip_witness :
    deletePreset (ofString "fresh-uuid")
        (addPreset (ofString "TV") (ofString "cfg2") none (ofString "fresh-uuid")
          (ofString "t1")
          ⟨ofString "1.0", [⟨ofString "p1", ofString "Work", ofString "cfg",
            none, ofString "t0"⟩]⟩).1
      = ⟨ofString "1.0", [⟨ofString "p1", ofString "Work", ofString "cfg",
          none, ofString "t0"⟩]⟩ :=
  add_delete_roundtrip.1
    ⟨ofString "1.0", [⟨ofString "p1", ofString "Work", ofString "cfg", none, ofString "t0"⟩]⟩
    (ofString "TV") (ofString "cfg2") none (ofString "fresh-uuid") (ofString "t1")
    (by decide)

lemma splitWSAux_append_wsfree :
    ∀ (a s acc : Str), (∀ c ∈ a, isWS c = false) →
      splitWSAux (a ++ s) acc = splitWSAux s (a.reverse ++ acc) := by
  intro a
  induction a with
  | nil => intro s acc _; simp
  | cons c a ih =>
    intro s acc h
    have hc : isWS c = false := h c (List.mem_cons_self c a)
    rw [List.cons_append]
    have step : splitWSAux (c :: (a ++ s)) acc = splitWSAux (a ++ s) (c :: acc) := by
      simp [splitWSAux, hc]
    rw [step, ih s (c :: acc) (fun u hu => h u (List.mem_cons_of_mem c hu))]
    simp [List.append_assoc]

lemma splitWSAux_space_cons (rest acc : Str) (hne : acc ≠ []) :
    splitWSAux (' ' :: rest) acc = acc.reverse :: splitWSAux rest [] := by
  have h2 : acc.isEmpty = false := by
    cases acc with
    | nil => exact absurd rfl hne
    | cons c l => rfl
  have hsp : isWS ' ' = true := rfl
  simp [splitWSAux, hsp, h2]

lemma splitWSAux_wsfree_whole (b : Str) (hb : ∀ c ∈ b, isWS c = false) (hne : b ≠ []) :
    splitWSAux b [] = [b] := by
  have h1 := splitWSAux_append_wsfree b [] [] hb
  rw [List.append_nil, List.append_nil] at h1
  have h2 : b.reverse.isEmpty = false := by
    cases hrv : b.reverse with
    | nil => exact absurd (List.reverse_eq_nil_iff.mp hrv) hne
    | cons c l => rfl
  rw [h1]
  simp [splitWSAux, h2]

/-- C10: the toggle argument is exactly the token `id:<id>`, one space,
and the token `enabled:<true|false>`, in that order; when the id itself
has no whitespace the argument splits into exactly those two tokens — in
particular no res/origin/degree token is included. -/
theorem toggle_config_two_tokens :
    (∀ (id : Str) (enabled : Bool), toggleConfigArg id enabled
      = (ofString "id:" ++ id) ++ ' ' :: (ofString "enabled:" ++ enabledStr enabled))
    ∧ (∀ (id : Str) (enabled : Bool), (∀ c ∈ id, isWS c = false) →
        splitWS (toggleConfigArg id enabled)
          = [ofString "id:" ++ id, ofString "enabled:" ++ enabledStr enabled]) := by
  have shape : ∀ (id : Str) (enabled : Bool), toggleConfigArg id enabled
      = (ofString "id:" ++ id) ++ ' ' :: (ofString "enabled:" ++ enabledStr enabled) := by
    intro id enabled
    simp only [toggleConfigArg, List.append_assoc]
    rfl
  refine ⟨shape, ?_⟩
  intro id enabled h
  have ha0 : ∀ c ∈ ofString "id:", isWS c = false := by decide
  have ha : ∀ c ∈ ofString "id:" ++ id, isWS c = false := fun c hc =>
    (List.mem_append.mp hc).elim (ha0 c) (h c)
  have hb : ∀ c ∈ ofString "enabled:" ++ enabledStr enabled, isWS c = false := by
    cases enabled <;> decide
  have hane : (ofString "id:" ++ id).reverse ≠ [] := by
    intro hcontra
    have hlen := congrArg List.length hcontra
    rw [List.length_reverse, List.length_append, List.length_nil] at hlen
    rw [show (ofString "id:").length = 3 from rfl] at hlen
    omega
  have hbne : (ofString "enabled:" ++ enabledStr enabled) ≠ [] := by
    intro hcontra
    have hlen := congrArg List.length hcontra
    rw [List.length_append, List.length_nil] at hlen
    rw [show (ofString "enabled:").length = 8 from rfl] at hlen
    omega
  rw [shape]
  show splitWSAux ((ofString "id:" ++ id) ++ ' ' :: (ofString "enabled:" ++ enabledStr enabled)) [] = _
  rw [splitWSAux_append_wsfree _ _ _ ha, List.append_nil,
    splitWSAux_space_cons _ _ hane, List.reverse_reverse,
    splitWSAux_wsfree_whole _ hb hbne]

/-- C10 (witness): the two-token split at a concrete whitespace-free
display id. -/
theorem toggle_config_two_tokens_witness :
    splitWS (toggleConfigArg (ofString "37D8832A-2D66") false)
      = [ofString "id:" ++ ofString "37D8832A-2D66",
         ofString "enabled:" ++ enabledStr false] :=
  toggle_config_two_tokens.2 (ofString "37D8832A-2D66") false (by decide)


end Dpui
